import Mathlib

/-!
Verification development for the avior-infuser eligibility selection engine
(`src/lib.rs`, `src/db.rs`).

Shallow embedding conventions:
* `bson::oid::ObjectId` is modelled by its string form (`to_string` of an
  ObjectId is injective, and the engine only ever compares ids and uses the
  string form as a lookup key).
* Rust `i32` values (`maximum_jobs`, `priority`, load counts) are modelled as
  `Int`; no arithmetic is performed on them by the engine, only comparisons,
  so no overflow reduction is needed.  `i32::MAX` is the explicit constant
  `INT32_MAX`.
* `BTreeMap<i32, _>` is modelled as an association list whose keys are
  strictly increasing (that is how the map iterates); `HashMap<K, V>` is
  modelled as an association list in iteration order, with `insert`
  replacing a structurally equal key (the derived `Hash` on `Client` hashes
  every field, so only structurally equal clients can collide on a bucket).
* Panicking code (`Option::unwrap`) is modelled with `Option`.
-/

/-- Model of `bson::oid::ObjectId`: its hex string form. -/
abbrev ObjectId := String

/-- String form of `ObjectId::default()` used by `group_clients` for clients
without a persisted id (`unwrap_or_default().to_string()`). Its concrete
value never matters below; it only has to be a fixed string. -/
def oidDefaultString : ObjectId := "000000000000000000000000"

/-- Model of Rust `i32::MAX`, the initial best-count in `get_eligible_client`. -/
def INT32_MAX : Int := 2147483647

/-- Model of `Client` (src/lib.rs lines 31-43). -/
structure Client where
  id : Option ObjectId
  name : String
  availability_start : String
  availability_end : String
  maximum_jobs : Int
  priority : Int
  online : Bool
  ignore_online : Bool
deriving DecidableEq, Repr

/-- Model of `impl PartialEq for Client` (src/lib.rs lines 45-52): name
equality when both ids are absent, id equality otherwise. -/
def clientEq (a b : Client) : Bool :=
  if a.id.isNone && b.id.isNone then a.name == b.name
  else a.id == b.id

/-- Model of `InfuserError` (src/lib.rs lines 13-15). -/
structure InfuserError where
  message : String
deriving DecidableEq, Repr

/-- Model of `AssignedClient` (src/lib.rs lines 100-108). -/
structure AssignedClient where
  collection : String
  id : ObjectId
  db : String
deriving DecidableEq, Repr

/-- Model of `Job` (src/lib.rs lines 56-65, src/db.rs lines 26-35). -/
structure Job where
  id : Option ObjectId
  name : String
  path : String
  subtitle : String
  custom_parameters : List String
  assigned_client : AssignedClient
deriving DecidableEq, Repr

/-- Model of `impl From<Client> for AssignedClient` (src/lib.rs lines
125-133). The Rust code calls `client.id.unwrap()`, which panics when the
id is `None`; the panic is modelled as `none`. -/
def assignedClient_from_client (c : Client) : Option AssignedClient :=
  c.id.map (fun i => { collection := "clients", db := "", id := i })

/-- Model of the assignment performed inline by `db::insert_job`
(src/db.rs lines 104-108): it overwrites `job.assigned_client` with
`AssignedClient { collection: "clients", db: "", id: client.id.unwrap() }`,
panicking (`none` here) when the client has no persisted id. Only this pure
prefix of `insert_job` is modelled; the database write that follows is IO. -/
def insert_job_assignment (client : Client) (job : Job) : Option Job :=
  client.id.map
    (fun i => { job with assigned_client := { collection := "clients", db := "", id := i } })

/-- One iteration of the inner loop of `get_eligible_client`
(src/lib.rs lines 153-169). `acc` is the pair
(`eligible`, `eligible_job_count`); `e` is one `(client, current_job_count)`
entry of the priority group. -/
def stepTier (ignored_clients : List Client) (acc : Option Client × Int)
    (e : Client × Option Int) : Option Client × Int :=
  if ignored_clients.any (fun x => clientEq x e.1) then acc
  else if !e.1.online && !e.1.ignore_online then acc
  else
    match e.2 with
    | some count =>
        if count < acc.2 ∧ count < e.1.maximum_jobs then (some e.1, count) else acc
    | none => (some e.1, 0)

/-- The inner loop of `get_eligible_client` over one priority group, with
`eligible = None` and `eligible_job_count = i32::MAX` as the initial state
(src/lib.rs lines 150-169). -/
def runTier (ignored_clients : List Client) (tier : List (Client × Option Int)) :
    Option Client × Int :=
  tier.foldl (stepTier ignored_clients) (none, INT32_MAX)

/-- Model of `get_eligible_client` (src/lib.rs lines 147-183). The
`BTreeMap` argument is the list of `(priority, group)` pairs in ascending
key order; each group lists its `(client, load)` entries in iteration
order. -/
def get_eligible_client (grouped_clients : List (Int × List (Client × Option Int)))
    (ignored_clients : List Client) : Except InfuserError (Client × Int × Int) :=
  match grouped_clients with
  | [] => .error { message := "no eligible client found" }
  | (_, clients) :: rest =>
    match runTier ignored_clients clients with
    | (some client, count) => .ok (client, count, client.maximum_jobs)
    | (none, _) => get_eligible_client rest ignored_clients

/-- Lookup in the `machine_jobcounts` map (`HashMap<String, i32>::get`
followed by cloning, src/lib.rs line 190). -/
def hmGet (m : List (String × Int)) (k : String) : Option Int :=
  (m.find? (fun p => p.1 == k)).map (fun p => p.2)

/-- The string key `group_clients` derives for a client
(src/lib.rs line 189): `client.id.to_owned().unwrap_or_default().to_string()`. -/
def clientKey (c : Client) : String :=
  c.id.getD oidDefaultString

/-- Insert into a priority group (`HashMap<Client, Option<i32>>::insert`,
src/lib.rs line 191): replace the entry whose key collides with `c`
(derived `Hash` covers every field, so only a structurally equal client can
be the same key), otherwise append. -/
def hmInsert (tier : List (Client × Option Int)) (c : Client) (j : Option Int) :
    List (Client × Option Int) :=
  match tier with
  | [] => [(c, j)]
  | (c', j') :: rest =>
      if c' = c then (c, j) :: rest else (c', j') :: hmInsert rest c j

/-- Insert into the `BTreeMap` keyed by priority
(`dict.entry(prio).or_insert(HashMap::new()).insert(client, job_count)`,
src/lib.rs line 191), keeping keys in ascending order. -/
def btreeUpdate (dict : List (Int × List (Client × Option Int))) (prio : Int)
    (c : Client) (j : Option Int) : List (Int × List (Client × Option Int)) :=
  match dict with
  | [] => [(prio, hmInsert [] c j)]
  | (k, tier) :: rest =>
      if prio < k then (prio, hmInsert [] c j) :: (k, tier) :: rest
      else if prio = k then (k, hmInsert tier c j) :: rest
      else (k, tier) :: btreeUpdate rest prio c j

/-- Model of `group_clients` (src/lib.rs lines 185-200). -/
def group_clients (client_vec : List Client) (machine_jobcounts : List (String × Int)) :
    List (Int × List (Client × Option Int)) :=
  client_vec.foldl
    (fun dict client =>
      btreeUpdate dict client.priority client (hmGet machine_jobcounts (clientKey client)))
    []

/-- Load-count side of qualification: an absent count never disqualifies,
a known count must be below the client's capacity and below `i32::MAX`. -/
def countOk (c : Client) : Option Int → Prop
  | none => True
  | some n => n < c.maximum_jobs ∧ n < INT32_MAX

instance (c : Client) (k : Option Int) : Decidable (countOk c k) :=
  match k with
  | none => isTrue trivial
  | some n => inferInstanceAs (Decidable (n < c.maximum_jobs ∧ n < INT32_MAX))

/-- Qualification predicate for one `(client, load)` entry: the entry can
contribute a candidate in `get_eligible_client`'s inner loop. It is not
skipped by the exclusion check or the availability check, and its load
count satisfies `countOk`. -/
def Qualifies (ignored_clients : List Client) (e : Client × Option Int) : Prop :=
  ignored_clients.any (fun x => clientEq x e.1) = false ∧
  (!e.1.online && !e.1.ignore_online) = false ∧
  countOk e.1 e.2

instance (ign : List Client) (e : Client × Option Int) : Decidable (Qualifies ign e) :=
  inferInstanceAs (Decidable (_ ∧ _ ∧ _))

/-! Case lemmas for one iteration of the inner loop. -/

lemma stepTier_excluded {ign : List Client} {acc : Option Client × Int}
    {e : Client × Option Int} (h : ign.any (fun x => clientEq x e.1) = true) :
    stepTier ign acc e = acc := by
  simp [stepTier, h]

lemma stepTier_offline {ign : List Client} {acc : Option Client × Int}
    {e : Client × Option Int} (h1 : ign.any (fun x => clientEq x e.1) = false)
    (h2 : (!e.1.online && !e.1.ignore_online) = true) :
    stepTier ign acc e = acc := by
  simp [stepTier, h1, h2]

lemma stepTier_unknown {ign : List Client} {acc : Option Client × Int}
    {e : Client × Option Int} (h1 : ign.any (fun x => clientEq x e.1) = false)
    (h2 : (!e.1.online && !e.1.ignore_online) = false) (h3 : e.2 = none) :
    stepTier ign acc e = (some e.1, 0) := by
  simp [stepTier, h1, h2, h3]

lemma stepTier_known_hit {ign : List Client} {acc : Option Client × Int}
    {e : Client × Option Int} {n : Int} (h1 : ign.any (fun x => clientEq x e.1) = false)
    (h2 : (!e.1.online && !e.1.ignore_online) = false) (h3 : e.2 = some n)
    (h4 : n < acc.2 ∧ n < e.1.maximum_jobs) :
    stepTier ign acc e = (some e.1, n) := by
  simp [stepTier, h1, h2, h3, h4]

lemma stepTier_known_miss {ign : List Client} {acc : Option Client × Int}
    {e : Client × Option Int} {n : Int} (h1 : ign.any (fun x => clientEq x e.1) = false)
    (h2 : (!e.1.online && !e.1.ignore_online) = false) (h3 : e.2 = some n)
    (h4 : ¬(n < acc.2 ∧ n < e.1.maximum_jobs)) :
    stepTier ign acc e = acc := by
  simp [stepTier, h1, h2, h3, h4]

lemma stepTier_cases (ign : List Client) (acc : Option Client × Int)
    (e : Client × Option Int) :
    stepTier ign acc e = acc ∨
    (ign.any (fun x => clientEq x e.1) = false ∧
     (!e.1.online && !e.1.ignore_online) = false ∧
     ((∃ n, e.2 = some n ∧ n < acc.2 ∧ n < e.1.maximum_jobs ∧
        stepTier ign acc e = (some e.1, n)) ∨
      (e.2 = none ∧ stepTier ign acc e = (some e.1, 0)))) := by
  by_cases h1 : ign.any (fun x => clientEq x e.1) = true
  · exact Or.inl (stepTier_excluded h1)
  · have h1' : ign.any (fun x => clientEq x e.1) = false := by
      simpa using h1
    by_cases h2 : (!e.1.online && !e.1.ignore_online) = true
    · exact Or.inl (stepTier_offline h1' h2)
    · have h2' : (!e.1.online && !e.1.ignore_online) = false := by
        simpa using h2
      cases h3 : e.2 with
      | none => exact Or.inr ⟨h1', h2', Or.inr ⟨rfl, stepTier_unknown h1' h2' h3⟩⟩
      | some n =>
        by_cases h4 : n < acc.2 ∧ n < e.1.maximum_jobs
        · exact Or.inr ⟨h1', h2',
            Or.inl ⟨n, rfl, h4.1, h4.2, stepTier_known_hit h1' h2' h3 h4⟩⟩
        · exact Or.inl (stepTier_known_miss h1' h2' h3 h4)

lemma stepTier_fst_isSome (ign : List Client) (acc : Option Client × Int)
    (e : Client × Option Int) (h : acc.1.isSome = true) :
    (stepTier ign acc e).1.isSome = true := by
  rcases stepTier_cases ign acc e with h0 | ⟨-, -, ⟨n, -, -, -, h0⟩ | ⟨-, h0⟩⟩ <;>
    rw [h0] <;> simp [h]

lemma stepTier_snd_le_or_zero (ign : List Client) (acc : Option Client × Int)
    (e : Client × Option Int) :
    (stepTier ign acc e).2 ≤ acc.2 ∨ (stepTier ign acc e).2 = 0 := by
  rcases stepTier_cases ign acc e with h0 | ⟨-, -, ⟨n, -, hlt, -, h0⟩ | ⟨-, h0⟩⟩
  · rw [h0]; exact Or.inl le_rfl
  · rw [h0]; exact Or.inl (le_of_lt hlt)
  · rw [h0]; exact Or.inr rfl

/-! Generic fold machinery for the inner loop. -/

lemma foldl_stepTier_inv {P : Option Client × Int → Prop} (ign : List Client)
    (hstep : ∀ acc e, P acc → P (stepTier ign acc e)) :
    ∀ (l : List (Client × Option Int)) (acc : Option Client × Int),
      P acc → P (List.foldl (stepTier ign) acc l) := by
  intro l
  induction l with
  | nil => intro acc h; exact h
  | cons e t ih => intro acc h; exact ih _ (hstep acc e h)

lemma foldl_stepTier_mem (ign : List Client) :
    ∀ (l : List (Client × Option Int)) (acc : Option Client × Int) (c : Client),
      (List.foldl (stepTier ign) acc l).1 = some c →
      acc.1 = some c ∨ c ∈ l.map Prod.fst := by
  intro l
  induction l with
  | nil => intro acc c h; exact Or.inl h
  | cons e t ih =>
    intro acc c h
    rcases ih (stepTier ign acc e) c h with h' | h'
    · rcases stepTier_cases ign acc e with h0 | ⟨-, -, ⟨n, -, -, -, h0⟩ | ⟨-, h0⟩⟩
      · rw [h0] at h'
        exact Or.inl h'
      · rw [h0] at h'
        have : e.1 = c := Option.some.inj h'
        exact Or.inr (by simp [← this])
      · rw [h0] at h'
        have : e.1 = c := Option.some.inj h'
        exact Or.inr (by simp [← this])
    · exact Or.inr (by simp only [List.map_cons, List.mem_cons]; exact Or.inr h')

lemma runTier_capacity_or_zero (ign : List Client) (tier : List (Client × Option Int))
    (c : Client) (cnt : Int) (h : runTier ign tier = (some c, cnt)) :
    cnt < c.maximum_jobs ∨ cnt = 0 := by
  have hstep : ∀ acc e, (∀ d, acc.1 = some d → acc.2 < d.maximum_jobs ∨ acc.2 = 0) →
      ∀ d, (stepTier ign acc e).1 = some d →
        (stepTier ign acc e).2 < d.maximum_jobs ∨ (stepTier ign acc e).2 = 0 := by
    intro acc e hP d hd
    rcases stepTier_cases ign acc e with h0 | ⟨-, -, ⟨n, -, -, hn, h0⟩ | ⟨-, h0⟩⟩
    · rw [h0] at hd ⊢
      exact hP d hd
    · rw [h0] at hd ⊢
      cases Option.some.inj hd
      exact Or.inl hn
    · rw [h0] at hd ⊢
      exact Or.inr rfl
  have hinv := foldl_stepTier_inv
    (P := fun acc => ∀ d, acc.1 = some d → acc.2 < d.maximum_jobs ∨ acc.2 = 0)
    ign hstep tier (none, INT32_MAX) (by intro d hd; cases hd)
  simp only [runTier] at h
  rw [h] at hinv
  exact hinv c rfl

lemma runTier_not_excluded (ign : List Client) (tier : List (Client × Option Int))
    (c : Client) (cnt : Int) (h : runTier ign tier = (some c, cnt)) :
    ign.any (fun x => clientEq x c) = false := by
  have hstep : ∀ acc e, (∀ d, acc.1 = some d → ign.any (fun x => clientEq x d) = false) →
      ∀ d, (stepTier ign acc e).1 = some d → ign.any (fun x => clientEq x d) = false := by
    intro acc e hP d hd
    rcases stepTier_cases ign acc e with h0 | ⟨he1, -, ⟨n, -, -, -, h0⟩ | ⟨-, h0⟩⟩
    · rw [h0] at hd
      exact hP d hd
    · rw [h0] at hd
      cases Option.some.inj hd
      exact he1
    · rw [h0] at hd
      cases Option.some.inj hd
      exact he1
  have hinv := foldl_stepTier_inv
    (P := fun acc => ∀ d, acc.1 = some d → ign.any (fun x => clientEq x d) = false)
    ign hstep tier (none, INT32_MAX) (by intro d hd; cases hd)
  simp only [runTier] at h
  rw [h] at hinv
  exact hinv c rfl

lemma runTier_mem (ign : List Client) (tier : List (Client × Option Int))
    (c : Client) (cnt : Int) (h : runTier ign tier = (some c, cnt)) :
    c ∈ tier.map Prod.fst := by
  simp only [runTier] at h
  have := foldl_stepTier_mem ign tier (none, INT32_MAX) c (by rw [h])
  rcases this with h' | h'
  · simp at h'
  · exact h'
lemma foldl_stepTier_isSome_iff (ign : List Client) :
    ∀ (l : List (Client × Option Int)) (acc : Option Client × Int),
      (acc.1 = none → acc.2 = INT32_MAX) → acc.2 ≤ INT32_MAX →
      ((List.foldl (stepTier ign) acc l).1.isSome = true ↔
        (acc.1.isSome = true ∨ ∃ e ∈ l, Qualifies ign e)) := by
  intro l
  induction l with
  | nil =>
    intro acc _ _
    simp
  | cons e t ih =>
    intro acc hnone hle
    have hnone' : (stepTier ign acc e).1 = none → (stepTier ign acc e).2 = INT32_MAX := by
      intro hd
      rcases stepTier_cases ign acc e with h0 | ⟨-, -, ⟨n, -, -, -, h0⟩ | ⟨-, h0⟩⟩
      · rw [h0] at hd ⊢
        exact hnone hd
      · rw [h0] at hd
        cases hd
      · rw [h0] at hd
        cases hd
    have hle' : (stepTier ign acc e).2 ≤ INT32_MAX := by
      rcases stepTier_snd_le_or_zero ign acc e with h0 | h0
      · exact le_trans h0 hle
      · rw [h0]
        decide
    rw [List.foldl_cons, ih (stepTier ign acc e) hnone' hle']
    constructor
    · rintro (hs | ht)
      · rcases stepTier_cases ign acc e with h0 | ⟨he1, he2, ⟨n, hn, hlt, hmax, h0⟩ | ⟨hn, h0⟩⟩
        · rw [h0] at hs
          exact Or.inl hs
        · refine Or.inr ⟨e, List.mem_cons_self e t, he1, he2, ?_⟩
          rw [hn]
          exact ⟨hmax, lt_of_lt_of_le hlt hle⟩
        · refine Or.inr ⟨e, List.mem_cons_self e t, he1, he2, ?_⟩
          rw [hn]
          trivial
      · obtain ⟨e', he', hq⟩ := ht
        exact Or.inr ⟨e', List.mem_cons_of_mem e he', hq⟩
    · rintro (hs | ⟨e', he', hq⟩)
      · exact Or.inl (stepTier_fst_isSome ign acc e hs)
      · rcases List.mem_cons.1 he' with heq | he'
        · subst heq
          obtain ⟨ha, hb, hcnt⟩ := hq
          cases hk : e'.2 with
          | none =>
            left
            rw [stepTier_unknown ha hb hk]
            rfl
          | some n =>
            rw [hk] at hcnt
            have hcnt' : n < e'.1.maximum_jobs ∧ n < INT32_MAX := hcnt
            by_cases hcase : n < acc.2
            · left
              rw [stepTier_known_hit ha hb hk ⟨hcase, hcnt'.1⟩]
              rfl
            · have hacc : acc.1.isSome = true := by
                cases hacc1 : acc.1 with
                | none =>
                  exfalso
                  have h1 := hnone hacc1
                  have h2 : acc.2 ≤ n := le_of_not_lt hcase
                  rw [h1] at h2
                  exact absurd (lt_of_le_of_lt h2 hcnt'.2) (lt_irrefl _)
                | some d => rfl
              exact Or.inl (stepTier_fst_isSome ign acc e' hacc)
        · exact Or.inr ⟨e', he', hq⟩

lemma runTier_isSome_iff (ign : List Client) (tier : List (Client × Option Int)) :
    (runTier ign tier).1.isSome = true ↔ ∃ e ∈ tier, Qualifies ign e := by
  have h := foldl_stepTier_isSome_iff ign tier (none, INT32_MAX) (fun _ => rfl) le_rfl
  simpa [runTier] using h

lemma runTier_none_iff (ign : List Client) (tier : List (Client × Option Int)) :
    (runTier ign tier).1 = none ↔ ∀ e ∈ tier, ¬ Qualifies ign e := by
  constructor
  · intro h e he hq
    have hs : (runTier ign tier).1.isSome = true :=
      (runTier_isSome_iff ign tier).2 ⟨e, he, hq⟩
    rw [h] at hs
    cases hs
  · intro h
    cases hr : (runTier ign tier).1 with
    | none => rfl
    | some c =>
      have hs : (runTier ign tier).1.isSome = true := by rw [hr]; rfl
      obtain ⟨e, he, hq⟩ := (runTier_isSome_iff ign tier).1 hs
      exact absurd hq (h e he)

/-! Recursion lemmas for `get_eligible_client` over the tier list. -/

lemma gec_cons_some {ign : List Client} {tier : List (Client × Option Int)}
    {c : Client} {cnt : Int} (k : Int) (rest : List (Int × List (Client × Option Int)))
    (h : runTier ign tier = (some c, cnt)) :
    get_eligible_client ((k, tier) :: rest) ign = .ok (c, cnt, c.maximum_jobs) := by
  simp [get_eligible_client, h]

lemma gec_cons_none {ign : List Client} {tier : List (Client × Option Int)}
    (k : Int) (rest : List (Int × List (Client × Option Int)))
    (h : (runTier ign tier).1 = none) :
    get_eligible_client ((k, tier) :: rest) ign = get_eligible_client rest ign := by
  cases hr : runTier ign tier with
  | mk o cnt =>
    cases o with
    | some c =>
      rw [hr] at h
      exact Option.noConfusion h
    | none => simp [get_eligible_client, hr]

lemma gec_ok_inv (ign : List Client) (c : Client) (cnt mx : Int) :
    ∀ grouped : List (Int × List (Client × Option Int)),
      get_eligible_client grouped ign = .ok (c, cnt, mx) →
      ∃ pre k tier post, grouped = pre ++ (k, tier) :: post ∧
        runTier ign tier = (some c, cnt) ∧ mx = c.maximum_jobs ∧
        ∀ p ∈ pre, (runTier ign p.2).1 = none := by
  intro grouped
  induction grouped with
  | nil =>
    intro h
    simp [get_eligible_client] at h
  | cons p rest ih =>
    obtain ⟨k, tier⟩ := p
    intro h
    cases hr : runTier ign tier with
    | mk o cnt' =>
      cases o with
      | some c' =>
        rw [gec_cons_some k rest hr] at h
        simp only [Except.ok.injEq, Prod.mk.injEq] at h
        obtain ⟨hc, hcnt, hmx⟩ := h
        subst hc
        subst hcnt
        subst hmx
        exact ⟨[], k, tier, rest, rfl, hr, rfl, by intro p hp; cases hp⟩
      | none =>
        rw [gec_cons_none k rest (by rw [hr])] at h
        obtain ⟨pre, k', tier', post, hdec, hrt, hmx, hpre⟩ := ih h
        refine ⟨(k, tier) :: pre, k', tier', post, by rw [hdec, List.cons_append], hrt, hmx, ?_⟩
        intro p hp
        rcases List.mem_cons.1 hp with heq | hp
        · subst heq
          rw [hr]
        · exact hpre p hp

lemma gec_error_iff (ign : List Client) :
    ∀ grouped : List (Int × List (Client × Option Int)),
      get_eligible_client grouped ign = .error { message := "no eligible client found" } ↔
        ∀ p ∈ grouped, (runTier ign p.2).1 = none := by
  intro grouped
  induction grouped with
  | nil => simp [get_eligible_client]
  | cons p rest ih =>
    obtain ⟨k, tier⟩ := p
    cases hr : runTier ign tier with
    | mk o cnt' =>
      cases o with
      | some c' =>
        rw [gec_cons_some k rest hr]
        constructor
        · intro h
          exact Except.noConfusion h
        · intro h
          exfalso
          have h1 := h (k, tier) (List.mem_cons_self _ _)
          rw [hr] at h1
          exact Option.noConfusion h1
      | none =>
        rw [gec_cons_none k rest (by rw [hr]), ih]
        constructor
        · intro h p hp
          rcases List.mem_cons.1 hp with heq | hp
          · subst heq
            rw [hr]
          · exact h p hp
        · intro h p hp
          exact h p (List.mem_cons_of_mem _ hp)

lemma gec_congr_tier (ign : List Client) (tierA tierB : List (Client × Option Int))
    (hrt : runTier ign tierA = runTier ign tierB) :
    ∀ (preT : List (Int × List (Client × Option Int))) (key : Int)
      (postT : List (Int × List (Client × Option Int))),
      get_eligible_client (preT ++ (key, tierA) :: postT) ign =
      get_eligible_client (preT ++ (key, tierB) :: postT) ign := by
  intro preT
  induction preT with
  | nil =>
    intro key postT
    cases hr : runTier ign tierB with
    | mk o cnt =>
      cases o with
      | some c =>
        rw [List.nil_append, List.nil_append, gec_cons_some key postT (hrt.trans hr),
          gec_cons_some key postT hr]
      | none =>
        rw [List.nil_append, List.nil_append, gec_cons_none key postT (by rw [hrt, hr]),
          gec_cons_none key postT (by rw [hr])]
  | cons q preT ih =>
    intro key postT
    obtain ⟨kq, tq⟩ := q
    cases hr : runTier ign tq with
    | mk o cnt =>
      cases o with
      | some c =>
        rw [List.cons_append, List.cons_append, gec_cons_some kq _ hr, gec_cons_some kq _ hr]
      | none =>
        rw [List.cons_append, List.cons_append, gec_cons_none kq _ (by rw [hr]),
          gec_cons_none kq _ (by rw [hr])]
        exact ih key postT

lemma foldl_stepTier_congr (ign1 ign2 : List Client) :
    ∀ (l : List (Client × Option Int)) (acc : Option Client × Int),
      (∀ e ∈ l, ∀ a : Option Client × Int, stepTier ign1 a e = stepTier ign2 a e) →
      List.foldl (stepTier ign1) acc l = List.foldl (stepTier ign2) acc l := by
  intro l
  induction l with
  | nil =>
    intro acc _
    rfl
  | cons e t ih =>
    intro acc h
    rw [List.foldl_cons, List.foldl_cons, h e (List.mem_cons_self e t) acc]
    exact ih _ (fun e' he' => h e' (List.mem_cons_of_mem e he'))

lemma gec_congr_ign (ign1 ign2 : List Client) :
    ∀ grouped : List (Int × List (Client × Option Int)),
      (∀ p ∈ grouped, runTier ign1 p.2 = runTier ign2 p.2) →
      get_eligible_client grouped ign1 = get_eligible_client grouped ign2 := by
  intro grouped
  induction grouped with
  | nil =>
    intro _
    rfl
  | cons p rest ih =>
    intro h
    obtain ⟨k, tier⟩ := p
    have hp := h (k, tier) (List.mem_cons_self _ _)
    cases hr : runTier ign2 tier with
    | mk o cnt =>
      cases o with
      | some c =>
        rw [gec_cons_some k rest (hp.trans hr), gec_cons_some k rest hr]
      | none =>
        rw [gec_cons_none k rest (by rw [show runTier ign1 tier = runTier ign2 tier from hp, hr]),
          gec_cons_none k rest (by rw [hr])]
        exact ih (fun q hq => h q (List.mem_cons_of_mem _ hq))

/-! Lemmas about `group_clients`. -/

lemma hmInsert_mem (c : Client) (j : Option Int) :
    ∀ (tier : List (Client × Option Int)) (e : Client × Option Int),
      e ∈ hmInsert tier c j → e ∈ tier ∨ e = (c, j) := by
  intro tier
  induction tier with
  | nil =>
    intro e he
    simp only [hmInsert] at he
    exact Or.inr (List.mem_singleton.1 he)
  | cons p rest ih =>
    obtain ⟨c', j'⟩ := p
    intro e he
    by_cases hc : c' = c
    · rw [show hmInsert ((c', j') :: rest) c j = (c, j) :: rest from by
        simp only [hmInsert, if_pos hc]] at he
      rcases List.mem_cons.1 he with heq | he'
      · exact Or.inr heq
      · exact Or.inl (List.mem_cons_of_mem _ he')
    · rw [show hmInsert ((c', j') :: rest) c j = (c', j') :: hmInsert rest c j from by
        simp only [hmInsert, if_neg hc]] at he
      rcases List.mem_cons.1 he with heq | he'
      · exact Or.inl (by rw [heq]; exact List.mem_cons_self _ _)
      · rcases ih e he' with h | h
        · exact Or.inl (List.mem_cons_of_mem _ h)
        · exact Or.inr h

lemma btreeUpdate_mem_key (prio : Int) (c : Client) (j : Option Int) :
    ∀ (dict : List (Int × List (Client × Option Int))) (q : Int × List (Client × Option Int)),
      q ∈ btreeUpdate dict prio c j → q.1 = prio ∨ q.1 ∈ dict.map Prod.fst := by
  intro dict
  induction dict with
  | nil =>
    intro q hq
    simp only [btreeUpdate] at hq
    exact Or.inl (by rw [List.mem_singleton.1 hq])
  | cons p rest ih =>
    obtain ⟨k, tier⟩ := p
    intro q hq
    by_cases h1 : prio < k
    · simp only [btreeUpdate, if_pos h1] at hq
      rcases List.mem_cons.1 hq with heq | hq'
      · exact Or.inl (by rw [heq])
      · exact Or.inr (List.mem_map_of_mem Prod.fst hq')
    · by_cases h2 : prio = k
      · simp only [btreeUpdate, if_neg h1, if_pos h2] at hq
        rcases List.mem_cons.1 hq with heq | hq'
        · exact Or.inl (by rw [heq]; exact h2.symm)
        · exact Or.inr (List.mem_map_of_mem Prod.fst (List.mem_cons_of_mem _ hq'))
      · simp only [btreeUpdate, if_neg h1, if_neg h2] at hq
        rcases List.mem_cons.1 hq with heq | hq'
        · exact Or.inr (by rw [heq]; exact List.mem_map_of_mem Prod.fst (List.mem_cons_self _ _))
        · rcases ih q hq' with h | h
          · exact Or.inl h
          · exact Or.inr (by simp only [List.map_cons, List.mem_cons]; exact Or.inr h)

lemma btreeUpdate_entries (m : List (String × Int)) (prio : Int) (c : Client)
    (hc : c.priority = prio) :
    ∀ dict : List (Int × List (Client × Option Int)),
      (∀ p ∈ dict, ∀ e ∈ p.2, (e.1 : Client).priority = p.1 ∧ e.2 = hmGet m (clientKey e.1)) →
      ∀ p ∈ btreeUpdate dict prio c (hmGet m (clientKey c)), ∀ e ∈ p.2,
        (e.1 : Client).priority = p.1 ∧ e.2 = hmGet m (clientKey e.1) := by
  intro dict
  induction dict with
  | nil =>
    intro _ p hp e he
    simp only [btreeUpdate] at hp
    have heq := List.mem_singleton.1 hp
    subst heq
    rcases hmInsert_mem c _ [] e he with h | h
    · cases h
    · subst h
      exact ⟨hc, rfl⟩
  | cons q rest ih =>
    obtain ⟨k, tier⟩ := q
    intro hdict p hp e he
    by_cases h1 : prio < k
    · simp only [btreeUpdate, if_pos h1] at hp
      rcases List.mem_cons.1 hp with heq | hp'
      · subst heq
        rcases hmInsert_mem c _ [] e he with h | h
        · cases h
        · subst h
          exact ⟨hc, rfl⟩
      · exact hdict p hp' e he
    · by_cases h2 : prio = k
      · simp only [btreeUpdate, if_neg h1, if_pos h2] at hp
        rcases List.mem_cons.1 hp with heq | hp'
        · subst heq
          rcases hmInsert_mem c _ tier e he with h | h
          · exact hdict (k, tier) (List.mem_cons_self _ _) e h
          · subst h
            exact ⟨by rw [hc, h2], rfl⟩
        · exact hdict p (List.mem_cons_of_mem _ hp') e he
      · simp only [btreeUpdate, if_neg h1, if_neg h2] at hp
        rcases List.mem_cons.1 hp with heq | hp'
        · subst heq
          exact hdict (k, tier) (List.mem_cons_self _ _) e he
        · exact ih (fun p2 hp2 => hdict p2 (List.mem_cons_of_mem _ hp2)) p hp' e he

lemma btreeUpdate_sorted (prio : Int) (c : Client) (j : Option Int) :
    ∀ dict : List (Int × List (Client × Option Int)),
      dict.Pairwise (fun a b => a.1 < b.1) →
      (btreeUpdate dict prio c j).Pairwise (fun a b => a.1 < b.1) := by
  intro dict
  induction dict with
  | nil =>
    intro _
    simp only [btreeUpdate]
    exact List.pairwise_singleton _ _
  | cons q rest ih =>
    obtain ⟨k, tier⟩ := q
    intro hp
    rw [List.pairwise_cons] at hp
    obtain ⟨hk, hrest⟩ := hp
    by_cases h1 : prio < k
    · simp only [btreeUpdate, if_pos h1]
      rw [List.pairwise_cons]
      constructor
      · intro q hq
        rcases List.mem_cons.1 hq with heq | hq'
        · rw [heq]
          exact h1
        · exact lt_trans h1 (hk q hq')
      · rw [List.pairwise_cons]
        exact ⟨hk, hrest⟩
    · by_cases h2 : prio = k
      · simp only [btreeUpdate, if_neg h1, if_pos h2]
        rw [List.pairwise_cons]
        exact ⟨hk, hrest⟩
      · have h3 : k < prio := by omega
        simp only [btreeUpdate, if_neg h1, if_neg h2]
        rw [List.pairwise_cons]
        constructor
        · intro q hq
          rcases btreeUpdate_mem_key prio c j rest q hq with h | h
          · rw [h]
            exact h3
          · obtain ⟨p2, hp2, hpe⟩ := List.mem_map.1 h
            rw [← hpe]
            exact hk p2 hp2
        · exact ih hrest

lemma group_clients_inv (m : List (String × Int)) :
    ∀ (l : List Client) (dict : List (Int × List (Client × Option Int))),
      dict.Pairwise (fun a b => a.1 < b.1) →
      (∀ p ∈ dict, ∀ e ∈ p.2, (e.1 : Client).priority = p.1 ∧ e.2 = hmGet m (clientKey e.1)) →
      (List.foldl
        (fun dict client => btreeUpdate dict client.priority client (hmGet m (clientKey client)))
        dict l).Pairwise (fun a b => a.1 < b.1) ∧
      (∀ p ∈ List.foldl
          (fun dict client => btreeUpdate dict client.priority client (hmGet m (clientKey client)))
          dict l, ∀ e ∈ p.2, (e.1 : Client).priority = p.1 ∧ e.2 = hmGet m (clientKey e.1)) := by
  intro l
  induction l with
  | nil =>
    intro dict h1 h2
    exact ⟨h1, h2⟩
  | cons cl t ih =>
    intro dict h1 h2
    exact ih _ (btreeUpdate_sorted _ _ _ dict h1) (btreeUpdate_entries m cl.priority cl rfl dict h2)

/-! Tier-level lemmas for the unknown-load rule and the lowest-count rule. -/

lemma foldl_stepTier_fixed (ign : List Client) (c : Client) :
    ∀ post : List (Client × Option Int),
      (∀ e ∈ post, ign.any (fun x => clientEq x e.1) = true ∨
        (!e.1.online && !e.1.ignore_online) = true ∨ ∃ m, e.2 = some m ∧ 0 ≤ m) →
      List.foldl (stepTier ign) (some c, 0) post = (some c, 0) := by
  intro post
  induction post with
  | nil =>
    intro _
    rfl
  | cons e t ih =>
    intro h
    have he := h e (List.mem_cons_self e t)
    have hstep : stepTier ign (some c, 0) e = (some c, 0) := by
      rcases he with h1 | h2 | ⟨m, hm, hmn⟩
      · exact stepTier_excluded h1
      · by_cases hx : ign.any (fun x => clientEq x e.1) = true
        · exact stepTier_excluded hx
        · exact stepTier_offline (by simpa using hx) h2
      · by_cases hx : ign.any (fun x => clientEq x e.1) = true
        · exact stepTier_excluded hx
        · by_cases hy : (!e.1.online && !e.1.ignore_online) = true
          · exact stepTier_offline (by simpa using hx) hy
          · refine stepTier_known_miss (by simpa using hx) (by simpa using hy) hm ?_
            intro hcon
            exact absurd hcon.1 (not_lt.2 hmn)
    rw [List.foldl_cons, hstep]
    exact ih (fun e' he' => h e' (List.mem_cons_of_mem e he'))

lemma runTier_last_unknown (ign : List Client) (c : Client)
    (hne : ign.any (fun x => clientEq x c) = false)
    (hav : (!c.online && !c.ignore_online) = false)
    (pre post : List (Client × Option Int))
    (hpost : ∀ e ∈ post, ign.any (fun x => clientEq x e.1) = true ∨
      (!e.1.online && !e.1.ignore_online) = true ∨ ∃ m, e.2 = some m ∧ 0 ≤ m) :
    runTier ign (pre ++ (c, none) :: post) = (some c, 0) := by
  simp only [runTier, List.foldl_append, List.foldl_cons]
  rw [stepTier_unknown hne hav rfl]
  exact foldl_stepTier_fixed ign c post hpost

lemma runTier_min_known (ign : List Client) (tier : List (Client × Option Int))
    (c' : Client) (cnt : Int) (c : Client) (n : Int)
    (h : runTier ign tier = (some c', cnt))
    (hmem : (c, some n) ∈ tier)
    (hne : ign.any (fun x => clientEq x c) = false)
    (hav : (!c.online && !c.ignore_online) = false)
    (hlt : n < c.maximum_jobs) (hnn : 0 ≤ n) :
    cnt ≤ n := by
  obtain ⟨l1, l2, hdec⟩ := List.append_of_mem hmem
  subst hdec
  simp only [runTier, List.foldl_append, List.foldl_cons] at h
  have hstep : (stepTier ign (List.foldl (stepTier ign) (none, INT32_MAX) l1) (c, some n)).2 ≤ n := by
    by_cases hcase : n < (List.foldl (stepTier ign) (none, INT32_MAX) l1).2 ∧ n < c.maximum_jobs
    · rw [stepTier_known_hit hne hav rfl hcase]
    · rw [stepTier_known_miss hne hav rfl hcase]
      exact le_of_not_lt (fun hn => hcase ⟨hn, hlt⟩)
  have hpres : ∀ acc e, (acc : Option Client × Int).2 ≤ n → (stepTier ign acc e).2 ≤ n := by
    intro acc e hacc
    rcases stepTier_snd_le_or_zero ign acc e with h0 | h0
    · exact le_trans h0 hacc
    · rw [h0]
      exact hnn
  have hinv := foldl_stepTier_inv (P := fun acc => acc.2 ≤ n) ign hpres l2 _ hstep
  rw [h] at hinv
  exact hinv

/-! Concrete clients used by the witness and counterexample theorems. -/

/-- Convenience constructor for concrete clients. -/
def mkClient (oid : Option ObjectId) (nm : String) (mx prio : Int) (onl ovr : Bool) : Client :=
  { id := oid, name := nm, availability_start := "", availability_end := "",
    maximum_jobs := mx, priority := prio, online := onl, ignore_online := ovr }

def clientD1 : Client := mkClient (some "1") "one" 5 1 true false

def clientD2 : Client := mkClient (some "2") "two" 5 1 true false

def clientZeroCap : Client := mkClient (some "z") "zero" 0 1 true false

def clientU : Client := mkClient (some "u") "unknown" 5 1 true false

def clientK1 : Client := mkClient (some "k1") "known1" 5 1 true false

def clientK2 : Client := mkClient (some "k2") "known2" 5 1 true false

def clientOff : Client := mkClient (some "off") "offline" 5 1 false false

def clientB2 : Client := mkClient (some "2") "two" 3 2 true false

def clientT : Client := mkClient none "two" 5 1 true false

/-- Grouped structure of spec scenario B: an offline priority-1 tier above an
online priority-2 tier. -/
def groupedB : List (Int × List (Client × Option Int)) :=
  [(1, [(clientOff, none)]), (2, [(clientB2, none)])]

example : get_eligible_client [(1, [(clientD1, some 3), (clientD2, some 1)])] [] =
    .ok (clientD2, 1, 5) := rfl

example : get_eligible_client [] [] = .error { message := "no eligible client found" } := rfl

example : group_clients [clientD1, clientD2] [("1", 3), ("2", 1)] =
    [(1, [(clientD1, some 3), (clientD2, some 1)])] := rfl

example : get_eligible_client [(1, [(clientD1, some 3), (clientD2, some 1)])] [clientD2] =
    .ok (clientD1, 3, 5) := rfl

example : get_eligible_client groupedB [] = .ok (clientB2, 0, 3) := rfl

lemma clientEq_persisted_transient (a b : Client) (ha : a.id.isSome = true)
    (hb : b.id = none) : clientEq a b = false ∧ clientEq b a = false := by
  obtain ⟨i, hi⟩ := Option.isSome_iff_exists.1 ha
  constructor
  · rw [clientEq, hi, hb]
    simp
  · rw [clientEq, hi, hb]
    simp

/-! Claim theorems. -/

/-- C1 (amended): whenever `get_eligible_client` returns `Ok` with a client,
a current count and a maximum, the maximum equals the client's
`maximum_jobs` field, and the count is strictly below the maximum unless the
client was selected via the unknown-load branch, whose recorded count is 0
regardless of capacity. In particular the strict inequality holds whenever
`maximum_jobs` is positive. -/
theorem eligible_count_lt_max_or_zero (grouped : List (Int × List (Client × Option Int)))
    (ign : List Client) (c : Client) (cnt mx : Int)
    (h : get_eligible_client grouped ign = .ok (c, cnt, mx)) :
    mx = c.maximum_jobs ∧ (cnt < mx ∨ cnt = 0) := by
  obtain ⟨pre, k, tier, post, hdec, hrt, hmx, hpre⟩ := gec_ok_inv ign c cnt mx grouped h
  refine ⟨hmx, ?_⟩
  rw [hmx]
  exact runTier_capacity_or_zero ign tier c cnt hrt

/-- C1 (counterexample): a single online client with `maximum_jobs = 0` and
no load-count entry is selected via the unknown-load branch with recorded
count 0 and returned maximum 0, so the returned count is not strictly less
than the returned maximum. -/
theorem zero_capacity_unknown_load_counterexample :
    get_eligible_client [((1 : Int), [(clientZeroCap, (none : Option Int))])] [] =
      .ok (clientZeroCap, 0, clientZeroCap.maximum_jobs) ∧
    ¬ ((0 : Int) < clientZeroCap.maximum_jobs) := by
  constructor
  · rfl
  · decide

/-- C1 witness: instantiation of the amended claim at a concrete input where
the known-load branch returns count 2 and maximum 5. -/
theorem eligible_count_lt_max_or_zero_witness :
    (5 : Int) = clientD1.maximum_jobs ∧ ((2 : Int) < 5 ∨ (2 : Int) = 0) :=
  eligible_count_lt_max_or_zero [((1 : Int), [(clientD1, some 2)])] [] clientD1 2 5 rfl

/-- C2: a non-skipped client with an absent load count unconditionally
becomes the best candidate with recorded count 0, replacing any previous
candidate (first conjunct, for an arbitrary accumulator); consequently, when
every later entry of the tier is skipped or carries a known nonnegative
count, the last unknown-load client wins the tier with count 0: a later
known-load client would need a count strictly below 0 to replace it (second
conjunct). -/
theorem unknown_load_client_wins_tier (ign : List Client) (c : Client)
    (hne : ign.any (fun x => clientEq x c) = false)
    (hav : (!c.online && !c.ignore_online) = false) :
    (∀ acc : Option Client × Int, stepTier ign acc (c, none) = (some c, 0)) ∧
    (∀ pre post : List (Client × Option Int),
      (∀ e ∈ post, ign.any (fun x => clientEq x e.1) = true ∨
        (!e.1.online && !e.1.ignore_online) = true ∨ ∃ m, e.2 = some m ∧ 0 ≤ m) →
      runTier ign (pre ++ (c, none) :: post) = (some c, 0)) := by
  refine ⟨?_, ?_⟩
  · intro acc
    exact stepTier_unknown hne hav rfl
  · intro pre post hpost
    exact runTier_last_unknown ign c hne hav pre post hpost

/-- C2 witness: in a tier listing a known-load client, then the unknown-load
client, then a known zero-load client, the unknown-load client wins with
count 0. -/
theorem unknown_load_client_wins_tier_witness :
    runTier [] [(clientK1, some 3), (clientU, none), (clientK2, some 0)] = (some clientU, 0) :=
  (unknown_load_client_wins_tier [] clientU rfl rfl).2 [(clientK1, some 3)]
    [(clientK2, some 0)]
    (by
      intro e he
      rw [List.mem_singleton] at he
      subst he
      exact Or.inr (Or.inr ⟨0, rfl, le_refl 0⟩))

/-- C6: within a tier, a known-load entry becomes the best candidate exactly
when its count is strictly below both the best count so far and its own
`maximum_jobs` (first conjunct); the best count starts at `i32::MAX`
(second conjunct); hence the count returned for the tier is at most the
count of every available, non-excluded, under-capacity known-load entry
(third conjunct); concretely, scenario D returns client 2 with count 1
(fourth conjunct). -/
theorem lowest_known_count_wins_within_tier (ign : List Client) :
    (∀ (c : Client) (acc : Option Client × Int) (n : Int),
      ign.any (fun x => clientEq x c) = false →
      (!c.online && !c.ignore_online) = false →
      stepTier ign acc (c, some n) =
        if n < acc.2 ∧ n < c.maximum_jobs then (some c, n) else acc) ∧
    runTier ign [] = (none, INT32_MAX) ∧
    (∀ (tier : List (Client × Option Int)) (c' : Client) (cnt : Int) (c : Client) (n : Int),
      runTier ign tier = (some c', cnt) → (c, some n) ∈ tier →
      ign.any (fun x => clientEq x c) = false →
      (!c.online && !c.ignore_online) = false →
      n < c.maximum_jobs → 0 ≤ n → cnt ≤ n) ∧
    get_eligible_client [((1 : Int), [(clientD1, some 3), (clientD2, some 1)])] [] =
      .ok (clientD2, 1, 5) := by
  refine ⟨?_, rfl, ?_, rfl⟩
  · intro c acc n h1 h2
    by_cases hc : n < acc.2 ∧ n < c.maximum_jobs
    · rw [if_pos hc]
      exact stepTier_known_hit h1 h2 rfl hc
    · rw [if_neg hc]
      exact stepTier_known_miss h1 h2 rfl hc
  · intro tier c' cnt c n h hmem h1 h2 h3 h4
    exact runTier_min_known ign tier c' cnt c n h hmem h1 h2 h3 h4

/-- C6 witness: in scenario D the tier returns count 1, which is at most the
load 3 of the other qualifying client. -/
theorem lowest_known_count_wins_within_tier_witness : (1 : Int) ≤ 3 :=
  (lowest_known_count_wins_within_tier []).2.2.1
    [(clientD1, some 3), (clientD2, some 1)] clientD2 1 clientD1 3 rfl
    (List.mem_cons_self _ _) rfl rfl (by decide) (by decide)

/-- C7: client equality is decided exactly by the identity rule: with both
ids present it is id equality (names and all other fields ignored), with
both ids absent it is name equality, and in general the result depends only
on the `id` and `name` fields, never on priority, capacity, availability or
the flags. -/
theorem client_equality_identity_rule (a b : Client) :
    (∀ i j, a.id = some i → b.id = some j → (clientEq a b = true ↔ i = j)) ∧
    (a.id = none → b.id = none → (clientEq a b = true ↔ a.name = b.name)) ∧
    (∀ a' b' : Client, a'.id = a.id → b'.id = b.id → a'.name = a.name → b'.name = b.name →
      clientEq a' b' = clientEq a b) := by
  refine ⟨?_, ?_, ?_⟩
  · intro i j hi hj
    rw [clientEq, hi, hj]
    simp
  · intro ha hb
    rw [clientEq, ha, hb]
    simp
  · intro a' b' h1 h2 h3 h4
    rw [clientEq, clientEq, h1, h2, h3, h4]

/-- C7 witness: two clients with the same persisted id are equal under the
identity rule (here `clientB2`, which differs from `clientD2` in capacity
and priority but carries the same id). -/
theorem client_equality_identity_rule_witness : clientEq clientD2 clientB2 = true :=
  ((client_equality_identity_rule clientD2 clientB2).1 "2" "2" rfl rfl).mpr rfl

/-- C9: converting a `Client` into an `AssignedClient` (the `From` impl,
also performed inline by `insert_job`) yields collection "clients", empty
db and the client's id when the id is persisted, and hits the `unwrap`
panic branch (modelled as `none`) when the id is absent; that branch is
reachable, since clients without a persisted id exist. -/
theorem assigned_client_requires_persisted_id :
    (∀ (c : Client) (i : ObjectId), c.id = some i →
      assignedClient_from_client c = some { collection := "clients", id := i, db := "" }) ∧
    (∀ c : Client, c.id = none → assignedClient_from_client c = none) ∧
    (∀ (c : Client) (job : Job), c.id = none → insert_job_assignment c job = none) ∧
    (∃ c : Client, c.id = none ∧ assignedClient_from_client c = none) := by
  refine ⟨?_, ?_, ?_, ?_⟩
  · intro c i h
    rw [assignedClient_from_client, h]
    rfl
  · intro c h
    rw [assignedClient_from_client, h]
    rfl
  · intro c job h
    rw [insert_job_assignment, h]
    rfl
  · exact ⟨clientT, rfl, rfl⟩

/-- C9 witness: the conversion of a persisted client evaluates to the
expected reference. -/
theorem assigned_client_requires_persisted_id_witness :
    assignedClient_from_client clientD1 =
      some { collection := "clients", id := "1", db := "" } :=
  assigned_client_requires_persisted_id.1 clientD1 "1" rfl

/-- C3: on a grouped input with strictly ascending priority keys, a returned
client comes from a tier such that every earlier tier has no qualifying
entry, the chosen tier has one, the client is a member of that tier, and
every tier containing a qualifying entry has a priority key at least the
chosen one — the function never returns a client from a tier with a larger
priority number than the lowest qualifying tier. -/
theorem chosen_client_in_lowest_qualifying_tier
    (grouped : List (Int × List (Client × Option Int))) (ign : List Client)
    (c : Client) (cnt mx : Int)
    (hsort : grouped.Pairwise (fun a b => a.1 < b.1))
    (hok : get_eligible_client grouped ign = .ok (c, cnt, mx)) :
    ∃ pre k tier post, grouped = pre ++ (k, tier) :: post ∧
      c ∈ tier.map Prod.fst ∧
      runTier ign tier = (some c, cnt) ∧
      (∃ e ∈ tier, Qualifies ign e) ∧
      (∀ p ∈ pre, ∀ e ∈ p.2, ¬ Qualifies ign e) ∧
      (∀ p ∈ grouped, (∃ e ∈ p.2, Qualifies ign e) → k ≤ p.1) := by
  obtain ⟨pre, k, tier, post, hdec, hrt, hmx, hpre⟩ := gec_ok_inv ign c cnt mx grouped hok
  refine ⟨pre, k, tier, post, hdec, runTier_mem ign tier c cnt hrt, hrt, ?_, ?_, ?_⟩
  · exact (runTier_isSome_iff ign tier).1 (by rw [hrt]; rfl)
  · intro p hp
    exact (runTier_none_iff ign p.2).1 (hpre p hp)
  · intro p hp hq
    subst hdec
    rcases List.mem_append.1 hp with hp1 | hp2
    · exfalso
      obtain ⟨e, he, hqe⟩ := hq
      exact (runTier_none_iff ign p.2).1 (hpre p hp1) e he hqe
    · rcases List.mem_cons.1 hp2 with heq | hp3
      · rw [heq]
      · have h1 := (List.pairwise_append.1 hsort).2.1
        rw [List.pairwise_cons] at h1
        exact le_of_lt (h1.1 p hp3)

/-- C3 witness: scenario B — the offline priority-1 tier has no qualifying
entry, so the returned client comes from the priority-2 tier. -/
theorem chosen_client_in_lowest_qualifying_tier_witness :
    ∃ pre k tier post, groupedB = pre ++ (k, tier) :: post ∧
      clientB2 ∈ tier.map Prod.fst ∧
      runTier [] tier = (some clientB2, 0) ∧
      (∃ e ∈ tier, Qualifies [] e) ∧
      (∀ p ∈ pre, ∀ e ∈ p.2, ¬ Qualifies [] e) ∧
      (∀ p ∈ groupedB, (∃ e ∈ p.2, Qualifies [] e) → k ≤ p.1) :=
  chosen_client_in_lowest_qualifying_tier groupedB [] clientB2 0 3 (by decide) rfl

/-- C4: `get_eligible_client` returns the "no eligible client found" error
exactly when no tier holds a qualifying entry; in particular it always does
so when every client is offline without the `ignore_online` override, and on
the empty grouped structure. -/
theorem no_eligible_client_error_iff (grouped : List (Int × List (Client × Option Int)))
    (ign : List Client) :
    (get_eligible_client grouped ign = .error { message := "no eligible client found" } ↔
      ∀ p ∈ grouped, ∀ e ∈ p.2, ¬ Qualifies ign e) ∧
    ((∀ p ∈ grouped, ∀ e ∈ p.2, ((e : Client × Option Int).1).online = false ∧
        ((e : Client × Option Int).1).ignore_online = false) →
      get_eligible_client grouped ign = .error { message := "no eligible client found" }) ∧
    get_eligible_client ([] : List (Int × List (Client × Option Int))) ign =
      .error { message := "no eligible client found" } := by
  have hiff : get_eligible_client grouped ign = .error { message := "no eligible client found" } ↔
      ∀ p ∈ grouped, ∀ e ∈ p.2, ¬ Qualifies ign e := by
    rw [gec_error_iff]
    constructor
    · intro h p hp
      exact (runTier_none_iff ign p.2).1 (h p hp)
    · intro h p hp
      exact (runTier_none_iff ign p.2).2 (h p hp)
  refine ⟨hiff, ?_, rfl⟩
  intro hoff
  rw [hiff]
  intro p hp e he hq
  obtain ⟨-, hb, -⟩ := hq
  obtain ⟨h1, h2⟩ := hoff p hp e he
  rw [h1, h2] at hb
  simp at hb

/-- C4 witness: one offline client without the override always produces the
"no eligible client found" error. -/
theorem no_eligible_client_error_iff_witness :
    get_eligible_client [((1 : Int), [(clientOff, (none : Option Int))])] [] =
      .error { message := "no eligible client found" } :=
  (no_eligible_client_error_iff [((1 : Int), [(clientOff, (none : Option Int))])] []).2.1
    (by decide)

/-- C5: a client matching an entry of the exclusion list is never returned
(first conjunct), and removing an excluded client's entry from its tier does
not change the result of `get_eligible_client` at all (second conjunct):
the outcome is as if that client did not exist in its tier. -/
theorem excluded_client_never_returned (ign : List Client) :
    (∀ (grouped : List (Int × List (Client × Option Int))) (c : Client) (cnt mx : Int),
      get_eligible_client grouped ign = .ok (c, cnt, mx) →
      ∀ x ∈ ign, clientEq x c = false) ∧
    (∀ (preT : List (Int × List (Client × Option Int))) (key : Int)
       (pre : List (Client × Option Int)) (c : Client) (k : Option Int)
       (post : List (Client × Option Int)) (postT : List (Int × List (Client × Option Int))),
      ign.any (fun x => clientEq x c) = true →
      get_eligible_client (preT ++ (key, pre ++ (c, k) :: post) :: postT) ign =
      get_eligible_client (preT ++ (key, pre ++ post) :: postT) ign) := by
  refine ⟨?_, ?_⟩
  · intro grouped c cnt mx h x hx
    obtain ⟨pre, k, tier, post, hdec, hrt, hmx, hpre⟩ := gec_ok_inv ign c cnt mx grouped h
    have hne := runTier_not_excluded ign tier c cnt hrt
    rw [List.any_eq_false] at hne
    simpa using hne x hx
  · intro preT key pre c k post postT hexcl
    have hrt : runTier ign (pre ++ (c, k) :: post) = runTier ign (pre ++ post) := by
      simp only [runTier, List.foldl_append, List.foldl_cons]
      rw [stepTier_excluded hexcl]
    exact gec_congr_tier ign _ _ hrt preT key postT

/-- C5 witness: with client 2 excluded, it is not returned, and dropping its
entry from the tier leaves the result unchanged. -/
theorem excluded_client_never_returned_witness :
    clientEq clientD2 clientD1 = false ∧
    get_eligible_client [((1 : Int), [(clientD1, some 3), (clientD2, some 1)])] [clientD2] =
      get_eligible_client [((1 : Int), [(clientD1, some 3)])] [clientD2] := by
  constructor
  · exact (excluded_client_never_returned [clientD2]).1
      [((1 : Int), [(clientD1, some 3), (clientD2, some 1)])] clientD1 3 5 rfl
      clientD2 (List.mem_singleton_self _)
  · exact (excluded_client_never_returned [clientD2]).2 [] 1 [(clientD1, some 3)]
      clientD2 (some 1) [] [] (by decide)

/-- C8: `group_clients` maps the empty client list to the empty structure,
its priority keys are strictly ascending, and every `(client, load)` entry
sits under the key equal to the client's own priority with the load count
looked up under the client's derived identity key — in particular a client
whose key has no entry in the load-count map receives `none`. -/
theorem group_clients_spec (client_vec : List Client) (m : List (String × Int)) :
    group_clients [] m = [] ∧
    (group_clients client_vec m).Pairwise (fun a b => a.1 < b.1) ∧
    (∀ p ∈ group_clients client_vec m, ∀ e ∈ p.2,
      ((e : Client × Option Int).1).priority = p.1 ∧
      e.2 = hmGet m (clientKey e.1)) := by
  have h := group_clients_inv m client_vec [] List.Pairwise.nil (by intro p hp; cases hp)
  exact ⟨rfl, h.1, h.2⟩

/-- C8 witness: in the grouped structure for scenario D, client 1 sits under
its own priority and carries the load count found under its id key. -/
theorem group_clients_spec_witness :
    clientD1.priority = (1 : Int) ∧
    (some 3 : Option Int) = hmGet [("1", 3), ("2", 1)] (clientKey clientD1) :=
  (group_clients_spec [clientD1, clientD2] [("1", 3), ("2", 1)]).2.2
    ((1 : Int), [(clientD1, some 3), (clientD2, some 1)]) (by decide)
    (clientD1, some 3) (by decide)

/-- C10: a client with a persisted id is never equal to one without, even
with matching names (first conjunct); hence an exclusion list of transient
clients never skips any persisted client: the selection result equals the
one with an empty exclusion list (second conjunct). -/
theorem persisted_never_equals_transient :
    (∀ a b : Client, a.id.isSome = true → b.id = none →
      clientEq a b = false ∧ clientEq b a = false) ∧
    (∀ (grouped : List (Int × List (Client × Option Int))) (ign : List Client),
      (∀ x ∈ ign, (x : Client).id = none) →
      (∀ p ∈ grouped, ∀ e ∈ p.2, ((e : Client × Option Int).1).id.isSome = true) →
      get_eligible_client grouped ign = get_eligible_client grouped []) := by
  refine ⟨clientEq_persisted_transient, ?_⟩
  intro grouped ign hign hper
  apply gec_congr_ign
  intro p hp
  simp only [runTier]
  apply foldl_stepTier_congr
  intro e he a
  have hsome : (e.1 : Client).id.isSome = true := hper p hp e he
  have hanyf : ign.any (fun x => clientEq x e.1) = false := by
    rw [List.any_eq_false]
    intro x hx
    have hfx := (clientEq_persisted_transient e.1 x hsome (hign x hx)).2
    simp [hfx]
  simp only [stepTier, hanyf, List.any_nil]

/-- C10 witness: a transient client sharing the persisted client's name does
not exclude it. -/
theorem persisted_never_equals_transient_witness :
    clientEq clientD2 clientT = false ∧
    get_eligible_client [((1 : Int), [(clientD2, some 1)])] [clientT] =
      get_eligible_client [((1 : Int), [(clientD2, some 1)])] [] := by
  constructor
  · exact (persisted_never_equals_transient.1 clientD2 clientT rfl rfl).1
  · exact persisted_never_equals_transient.2 [((1 : Int), [(clientD2, some 1)])] [clientT]
      (by decide) (by decide)
